import Mathlib

/-!
Verification of the ABCU advising-assistant course pipeline (src/final.cpp).

The C++ source is shallowly embedded: `std::string` becomes `List Char`,
`std::map<std::string, Course>` becomes an association list with unique keys
(`setC` replaces in place or appends; std::map's key order is only ever
observed through an explicit sort, so insertion order is an adequate carrier),
console output of warnings and query results becomes structured values
(`Warning`, `DescribeResult`) that record exactly the data the printed
messages contain, and the file stream becomes `Option (List Str)` — `none`
models a path that cannot be opened, `some lines` the sequence of physical
lines `std::getline` would produce.
-/

/-- Strings of the C++ program, as lists of characters. -/
abbrev Str := List Char

/-- Conversion from Lean string literals, used for concrete test inputs. -/
def str (s : String) : Str := s.data

/-- `std::isspace` in the default C locale: space, tab, newline,
vertical tab, form feed, carriage return. -/
def isSpaceChar (c : Char) : Bool :=
  c = ' ' || c = '\t' || c = '\n' || c = '\x0b' || c = '\x0c' || c = '\r'

/-- `trim` from final.cpp: remove leading and trailing whitespace. -/
def trim (s : Str) : Str :=
  ((s.dropWhile isSpaceChar).reverse.dropWhile isSpaceChar).reverse

/-- `std::toupper` on one ASCII character (identity outside `'a'..'z'`). -/
def upChar (c : Char) : Char :=
  if 97 ≤ c.toNat ∧ c.toNat ≤ 122 then Char.ofNat (c.toNat - 32) else c

/-- `toUpper` from final.cpp: uppercase every character. -/
def upperStr (s : Str) : Str := s.map upChar

/-- The character loop of `parseCSVLine`: first argument is the rest of the
line, second is the `inQuotes` flag, third the current `field` accumulator.
Mirrors the C++ loop exactly, including the `i + 1` doubled-quote lookahead
and the final `fields.push_back(field)` after the loop. -/
def parseFields : Str → Bool → Str → List Str
  | [], _, field => [field]
  | [c], true, field =>
      if c = '"' then [field] else [field ++ [c]]
  | c :: c2 :: cs, true, field =>
      if c = '"' then
        if c2 = '"' then parseFields cs true (field ++ ['"'])
        else parseFields (c2 :: cs) false field
      else parseFields (c2 :: cs) true (field ++ [c])
  | c :: cs, false, field =>
      if c = '"' then parseFields cs true field
      else if c = ',' then field :: parseFields cs false []
      else parseFields cs false (field ++ [c])

/-- Modelled from the spec: "splits `raw` on a delimiter (comma) at the top
level". Plain comma splitting, used only to compare `parseCSVLine` with the
spec's words on quote-free lines. -/
def splitComma : Str → List Str
  | [] => [[]]
  | c :: cs =>
      if c = ',' then [] :: splitComma cs
      else
        match splitComma cs with
        | [] => [[c]]
        | f :: rest => (c :: f) :: rest

/-- `parseCSVLine` from final.cpp: split the raw line, then trim every field. -/
def parseCSVLine (line : Str) : List Str :=
  (parseFields line false []).map trim

/-- The `Course` struct of final.cpp. -/
structure Course where
  id : Str
  title : Str
  prereqs : List Str
deriving DecidableEq, Repr

/-- The default-constructed `Course` produced by `std::map::operator[]`
on a missing key. -/
def emptyCourse : Course := ⟨[], [], []⟩

/-- `std::map<std::string, Course>` as an association list with unique keys. -/
abbrev Catalog := List (Str × Course)

/-- `courses.find(k)`: the entry stored under key `k`, if any. -/
def findC : Catalog → Str → Option Course
  | [], _ => none
  | (k', c) :: rest, k => if k' = k then some c else findC rest k

/-- Store `v` under key `k`: replace the existing entry in place, or append
a new one (models both `operator[]` insertion and assignment through a
reference into the map). -/
def setC : Catalog → Str → Course → Catalog
  | [], k, v => [(k, v)]
  | (k', c) :: rest, k, v =>
      if k' = k then (k, v) :: rest else (k', c) :: setC rest k v

/-- The warnings `loadCoursesFromFile` pushes onto its `warnings` vector,
with the data each message string carries (1-indexed line number, course id). -/
inductive Warning where
  | fewerThan2 (lineNum : Nat)
  | emptyCourseId (lineNum : Nat)
  | emptyTitle (lineNum : Nat) (id : Str)
deriving DecidableEq, Repr

/-- `toUpper(trim(fields[i]))`: the normalization applied to each
prerequisite field. -/
def cleanPrereq (f : Str) : Str := upperStr (trim f)

/-- The prerequisite ids a list of raw fields contributes, in order: each
field normalized by `cleanPrereq`, empty results dropped. -/
def cleanPrereqs (fs : List Str) : List Str :=
  fs.filterMap (fun f => if cleanPrereq f = [] then none else some (cleanPrereq f))

/-- The prerequisite loop of `loadCoursesFromFile` (`fields[2..]`): trim and
uppercase each field, skip it when empty, otherwise append it to the course's
prerequisite list and insert a placeholder entry when the id is not yet in
the catalog. The `Course` component is the live reference `course`; the final
write-back happens in `processLine`. -/
def addPrereqs : List Str → Course × Catalog → Course × Catalog
  | [], s => s
  | f :: fs, (c, cat) =>
      let pid := cleanPrereq f
      if pid = [] then addPrereqs fs (c, cat)
      else
        addPrereqs fs
          ({ c with prereqs := c.prereqs ++ [pid] },
           if (findC cat pid).isSome then cat
           else setC cat pid ⟨pid, [], []⟩)

/-- One iteration of the `while (std::getline ...)` body of
`loadCoursesFromFile` on the physical line `line` numbered `lineNum`. -/
def processLine (cat : Catalog) (warns : List Warning) (lineNum : Nat)
    (line : Str) : Catalog × List Warning :=
  if trim line = [] then (cat, warns)
  else
    let fields := parseCSVLine line
    if fields.length < 2 then (cat, warns ++ [Warning.fewerThan2 lineNum])
    else
      let id := upperStr (trim (fields.headD []))
      let title := fields.getD 1 []
      if id = [] then (cat, warns ++ [Warning.emptyCourseId lineNum])
      else
        let warns1 :=
          if title = [] then warns ++ [Warning.emptyTitle lineNum id]
          else warns
        let c0 := (findC cat id).getD emptyCourse
        let c1 : Course :=
          ⟨id, if title = [] then c0.title else title, c0.prereqs⟩
        let cat1 := setC cat id c1
        let s := addPrereqs (fields.drop 2) (c1, cat1)
        (setC s.2 id s.1, warns1)

/-- The line loop of `loadCoursesFromFile`: `n` is the number of the next
line (`lineNum` is pre-incremented, so the first line is numbered 1). -/
def loadLinesAux : List Str → Nat → Catalog → List Warning →
    Catalog × List Warning
  | [], _, cat, warns => (cat, warns)
  | l :: ls, n, cat, warns =>
      let s := processLine cat warns n l
      loadLinesAux ls (n + 1) s.1 s.2

/-- Building a fresh catalog from the lines of an opened file
(`courses.clear(); warnings.clear();` then the line loop). -/
def loadLines (lines : List Str) : Catalog × List Warning :=
  loadLinesAux lines 1 [] []

/-- `loadCoursesFromFile`: `none` models a path that cannot be opened
(return `false` before touching `courses` or `warnings`); `some lines`
models a successful open, which clears both and rebuilds from the file. -/
def loadCoursesFromFile (file : Option (List Str)) (courses : Catalog)
    (warnings : List Warning) : Bool × Catalog × List Warning :=
  match file with
  | none => (false, courses, warnings)
  | some lines => (true, (loadLines lines).1, (loadLines lines).2)

/-- The state `main` keeps across menu iterations. -/
structure AppState where
  courses : Catalog
  dataLoaded : Bool
deriving DecidableEq, Repr

/-- Menu option 1 in `main`: run the load with a fresh warnings vector, set
`dataLoaded` from the result, keep `courses` as the load left them. -/
def doLoad (file : Option (List Str)) (st : AppState) :
    AppState × List Warning :=
  let r := loadCoursesFromFile file st.courses []
  (⟨r.2.1, r.1⟩, r.2.2)

/-- Lexicographic (codepoint) order on strings, the order `std::sort` uses
on `std::string` via `operator<`. -/
def lexLe : Str → Str → Bool
  | [], _ => true
  | _ :: _, [] => false
  | a :: as, b :: bs =>
      if a.toNat < b.toNat then true
      else if b.toNat < a.toNat then false
      else lexLe as bs

/-- `lexLe` as a relation, for the sorting lemmas. -/
def strLe (a b : Str) : Prop := lexLe a b = true

instance : DecidableRel strLe := fun a b => by
  unfold strLe; infer_instance

/-- `printSortedCourseList`: collect the ids of non-placeholder entries,
sort them, and emit each id with the title stored under it (`courses.at`). -/
def listSorted (cat : Catalog) : List (Str × Str) :=
  let ids := (cat.filter (fun kv => !kv.2.title.isEmpty)).map (fun kv => kv.2.id)
  (List.insertionSort strLe ids).map
    (fun i => (i, ((findC cat i).getD emptyCourse).title))

/-- The observable outcome of `printCourseInfo`: the error message for an
empty query, the not-found message (with the normalized query it names), or
the course header plus one output row per stored prerequisite — `some title`
when the prerequisite resolves to a non-placeholder entry, `none` for the
"Title unknown" row. -/
inductive DescribeResult where
  | emptyQuery
  | notFound (query : Str)
  | found (id title : Str) (prereqs : List (Str × Option Str))
deriving DecidableEq, Repr

/-- How `printCourseInfo` renders one prerequisite id. -/
def resolvePrereq (cat : Catalog) (pid : Str) : Str × Option Str :=
  match findC cat pid with
  | some p => if p.title = [] then (pid, none) else (p.id, some p.title)
  | none => (pid, none)

/-- `printCourseInfo`: trim and uppercase the raw query, then look it up. -/
def describe (cat : Catalog) (queryRaw : Str) : DescribeResult :=
  let query := upperStr (trim queryRaw)
  if query = [] then DescribeResult.emptyQuery
  else
    match findC cat query with
    | none => DescribeResult.notFound query
    | some c =>
        if c.title = [] then DescribeResult.notFound query
        else DescribeResult.found c.id c.title (c.prereqs.map (resolvePrereq cat))

/-- Every entry stores its own key in its `id` field, and keys are
uppercase-normalized. -/
def keysUpper (cat : Catalog) : Prop :=
  ∀ kv ∈ cat, kv.2.id = kv.1 ∧ upperStr kv.1 = kv.1

instance (cat : Catalog) : Decidable (keysUpper cat) := by
  unfold keysUpper; infer_instance

/-- The keys of the catalog are pairwise distinct (std::map key uniqueness). -/
def keysND (cat : Catalog) : Prop :=
  (cat.map Prod.fst).Nodup

instance (cat : Catalog) : Decidable (keysND cat) := by
  unfold keysND; infer_instance

/-- Every prerequisite id stored anywhere in the catalog has an entry. -/
def prereqClosed (cat : Catalog) : Prop :=
  ∀ kv ∈ cat, ∀ pid ∈ kv.2.prereqs, (findC cat pid).isSome

instance (cat : Catalog) : Decidable (prereqClosed cat) := by
  unfold prereqClosed; infer_instance

/-! ## String lemmas -/

theorem p_head_dropWhile (p : Char → Bool) :
    ∀ (l : Str) (a : Char) (l' : Str), List.dropWhile p l = a :: l' → p a = false
  | [], _, _, h => by simp at h
  | b :: bs, a, l', h => by
      cases hpb : p b with
      | true =>
          rw [List.dropWhile_cons, if_pos (by simp [hpb])] at h
          exact p_head_dropWhile p bs a l' h
      | false =>
          rw [List.dropWhile_cons, if_neg (by simp [hpb])] at h
          cases h
          exact hpb

theorem dropWhile_dropWhile (p : Char → Bool) (l : Str) :
    List.dropWhile p (List.dropWhile p l) = List.dropWhile p l := by
  cases h : List.dropWhile p l with
  | nil => rfl
  | cons a l' =>
      have ha : p a = false := p_head_dropWhile p l a l' h
      rw [List.dropWhile_cons, if_neg (by simp [ha])]

theorem dropWhile_fixed_of_append (p : Char → Bool) (l u : Str)
    (h : List.dropWhile p (l ++ u) = l ++ u) : List.dropWhile p l = l := by
  cases l with
  | nil => rfl
  | cons a x =>
      have ha : p a = false :=
        p_head_dropWhile p ((a :: x) ++ u) a (x ++ u) (by simpa using h)
      rw [List.dropWhile_cons, if_neg (by simp [ha])]

theorem trim_trim (s : Str) : trim (trim s) = trim s := by
  have h1 : List.dropWhile isSpaceChar
      ((List.dropWhile isSpaceChar ((List.dropWhile isSpaceChar s).reverse)).reverse)
      = (List.dropWhile isSpaceChar ((List.dropWhile isSpaceChar s).reverse)).reverse := by
    have hsuf : ∃ v, v ++ List.dropWhile isSpaceChar ((List.dropWhile isSpaceChar s).reverse)
        = (List.dropWhile isSpaceChar s).reverse :=
      List.dropWhile_suffix isSpaceChar
    obtain ⟨v, hv⟩ := hsuf
    have happ : (List.dropWhile isSpaceChar ((List.dropWhile isSpaceChar s).reverse)).reverse
        ++ v.reverse = List.dropWhile isSpaceChar s := by
      have h2 := congrArg List.reverse hv
      simpa [List.reverse_append] using h2
    exact dropWhile_fixed_of_append isSpaceChar _ _
      (by rw [happ]; exact dropWhile_dropWhile _ _)
  unfold trim
  rw [h1, List.reverse_reverse, dropWhile_dropWhile]

theorem upChar_upChar (c : Char) : upChar (upChar c) = upChar c := by
  unfold upChar
  by_cases h : 97 ≤ c.toNat ∧ c.toNat ≤ 122
  · rw [if_pos h]
    have hv : Nat.isValidChar (c.toNat - 32) := Or.inl (by omega)
    have ht : (Char.ofNat (c.toNat - 32)).toNat = c.toNat - 32 := by
      simp [Char.ofNat, hv]; rfl
    rw [if_neg (by rw [ht]; omega)]
  · rw [if_neg h, if_neg h]

theorem upperStr_upperStr (s : Str) : upperStr (upperStr s) = upperStr s := by
  unfold upperStr
  rw [List.map_map]
  exact List.map_congr_left (fun a _ => upChar_upChar a)

theorem upperStr_eq_nil (s : Str) : upperStr s = [] ↔ s = [] := by
  unfold upperStr; simp

theorem trim_of_mem_parseCSVLine (line f : Str) (h : f ∈ parseCSVLine line) :
    trim f = f := by
  unfold parseCSVLine at h
  obtain ⟨g, _, rfl⟩ := List.mem_map.mp h
  exact trim_trim g

theorem splitComma_ne_nil : ∀ l : Str, splitComma l ≠ []
  | [] => by simp [splitComma]
  | c :: cs => by
      unfold splitComma
      by_cases h : c = ','
      · simp [h]
      · rw [if_neg h]
        cases hs : splitComma cs <;> simp

theorem splitComma_cons_comma (cs : Str) :
    splitComma (',' :: cs) = [] :: splitComma cs := by
  simp [splitComma]

theorem splitComma_cons_ne (c : Char) (cs : Str) (h : ¬c = ',') (f : Str)
    (rest : List Str) (hs : splitComma cs = f :: rest) :
    splitComma (c :: cs) = (c :: f) :: rest := by
  unfold splitComma
  rw [if_neg h, hs]

theorem parseFields_no_quote : ∀ (l : Str) (acc : Str), '"' ∉ l →
    parseFields l false acc
      = (acc ++ (splitComma l).headD []) :: (splitComma l).tail
  | [], acc, _ => by simp [parseFields, splitComma]
  | c :: cs, acc, h => by
      have hc : ¬c = '"' := fun hh => h (hh ▸ List.mem_cons_self c cs)
      have hcs : '"' ∉ cs := fun hh => h (List.mem_cons_of_mem c hh)
      obtain ⟨f, rest, hs⟩ : ∃ f rest, splitComma cs = f :: rest := by
        cases hsc : splitComma cs with
        | nil => exact absurd hsc (splitComma_ne_nil cs)
        | cons f rest => exact ⟨f, rest, rfl⟩
      by_cases hcomma : c = ','
      · subst hcomma
        rw [show parseFields (',' :: cs) false acc = acc :: parseFields cs false [] from by
          simp [parseFields]]
        rw [parseFields_no_quote cs [] hcs, splitComma_cons_comma, hs]
        simp
      · rw [show parseFields (c :: cs) false acc = parseFields cs false (acc ++ [c]) from by
          simp [parseFields, hc, hcomma]]
        rw [parseFields_no_quote cs (acc ++ [c]) hcs,
          splitComma_cons_ne c cs hcomma f rest hs, hs]
        simp

/-! ## Catalog lemmas -/

theorem findC_setC_self : ∀ (cat : Catalog) (k : Str) (v : Course),
    findC (setC cat k v) k = some v
  | [], k, v => by simp [setC, findC]
  | (k', c) :: rest, k, v => by
      by_cases h : k' = k
      · simp [setC, findC, h]
      · simp only [setC, if_neg h, findC]
        exact findC_setC_self rest k v

theorem findC_setC_ne : ∀ (cat : Catalog) (k : Str) (v : Course) (k' : Str),
    ¬k' = k → findC (setC cat k v) k' = findC cat k'
  | [], k, v, k', h => by
      have h' : ¬k = k' := fun hh => h hh.symm
      simp [setC, findC, h']
  | (k0, c) :: rest, k, v, k', h => by
      by_cases h0 : k0 = k
      · simp only [setC, if_pos h0, findC]
        rw [if_neg (fun hh => h hh.symm), if_neg (fun hh => h (h0 ▸ hh).symm)]
      · simp only [setC, if_neg h0, findC]
        by_cases h1 : k0 = k'
        · rw [if_pos h1, if_pos h1]
        · rw [if_neg h1, if_neg h1]
          exact findC_setC_ne rest k v k' h

theorem isSome_findC_setC_iff (cat : Catalog) (k : Str) (v : Course) (k' : Str) :
    (findC (setC cat k v) k').isSome ↔ (findC cat k').isSome ∨ k' = k := by
  by_cases h : k' = k
  · subst h
    simp [findC_setC_self]
  · rw [findC_setC_ne cat k v k' h]
    simp [h]

theorem mem_setC : ∀ (cat : Catalog) (k : Str) (v : Course) (kv : Str × Course),
    kv ∈ setC cat k v → kv = (k, v) ∨ kv ∈ cat
  | [], k, v, kv, h => by
      simp [setC] at h
      exact Or.inl h
  | (k0, c) :: rest, k, v, kv, h => by
      by_cases h0 : k0 = k
      · simp only [setC, if_pos h0] at h
        rcases List.mem_cons.mp h with h1 | h1
        · exact Or.inl h1
        · exact Or.inr (List.mem_cons_of_mem _ h1)
      · simp only [setC, if_neg h0] at h
        rcases List.mem_cons.mp h with h1 | h1
        · subst h1
          exact Or.inr (List.Mem.head _)
        · rcases mem_setC rest k v kv h1 with h2 | h2
          · exact Or.inl h2
          · exact Or.inr (List.mem_cons_of_mem _ h2)

theorem findC_mem : ∀ (cat : Catalog) (k : Str) (c : Course),
    findC cat k = some c → (k, c) ∈ cat
  | [], _, _, h => by simp [findC] at h
  | (k', c') :: rest, k, c, h => by
      by_cases hk : k' = k
      · subst hk
        rw [findC, if_pos rfl] at h
        cases h
        exact List.Mem.head _
      · rw [findC, if_neg hk] at h
        exact List.mem_cons_of_mem _ (findC_mem rest k c h)

theorem findC_eq_some_of_mem (cat : Catalog) (hnd : keysND cat) (k : Str)
    (c : Course) (hm : (k, c) ∈ cat) : findC cat k = some c := by
  unfold keysND at hnd
  induction cat with
  | nil => simp at hm
  | cons kv rest ih =>
      obtain ⟨k0, c0⟩ := kv
      rw [List.map_cons, List.nodup_cons] at hnd
      rcases List.mem_cons.mp hm with h1 | h1
      · cases h1
        rw [findC, if_pos rfl]
      · have hk : ¬k0 = k := by
          intro hk0
          subst hk0
          exact hnd.1 (List.mem_map.mpr ⟨(k0, c), h1, rfl⟩)
        rw [findC, if_neg hk]
        exact ih hnd.2 h1

theorem keys_setC : ∀ (cat : Catalog) (k : Str) (v : Course),
    (setC cat k v).map Prod.fst
      = if (findC cat k).isSome then cat.map Prod.fst else cat.map Prod.fst ++ [k]
  | [], k, v => by simp [setC, findC]
  | (k0, c) :: rest, k, v => by
      by_cases h0 : k0 = k
      · simp [setC, findC, h0]
      · simp only [setC, if_neg h0, findC, List.map_cons]
        rw [keys_setC rest k v]
        by_cases hs : (findC rest k).isSome
        · simp [hs]
        · simp [hs]

theorem keysND_setC (cat : Catalog) (k : Str) (v : Course) (hnd : keysND cat) :
    keysND (setC cat k v) := by
  unfold keysND at hnd ⊢
  rw [keys_setC]
  by_cases hs : (findC cat k).isSome
  · rw [if_pos hs]
    exact hnd
  · rw [if_neg hs]
    have hk : k ∉ cat.map Prod.fst := by
      intro hmem
      obtain ⟨⟨k1, c1⟩, hm1, he⟩ := List.mem_map.mp hmem
      have he' : k1 = k := he
      subst he'
      have hsome := findC_eq_some_of_mem cat (by unfold keysND; exact hnd) k1 c1 hm1
      rw [hsome] at hs
      exact hs rfl
    simp [List.nodup_append, hnd, hk]

/-! ## Prerequisite-loop lemmas -/

theorem cleanPrereqs_cons_empty (f : Str) (fs : List Str)
    (h : cleanPrereq f = []) : cleanPrereqs (f :: fs) = cleanPrereqs fs := by
  unfold cleanPrereqs
  simp [List.filterMap_cons, h]

theorem cleanPrereqs_cons_ne (f : Str) (fs : List Str)
    (h : ¬cleanPrereq f = []) :
    cleanPrereqs (f :: fs) = cleanPrereq f :: cleanPrereqs fs := by
  unfold cleanPrereqs
  simp [List.filterMap_cons, h]

theorem addPrereqs_cons_empty (f : Str) (fs : List Str) (c : Course)
    (cat : Catalog) (h : cleanPrereq f = []) :
    addPrereqs (f :: fs) (c, cat) = addPrereqs fs (c, cat) := by
  simp [addPrereqs, h]

theorem addPrereqs_cons_ne (f : Str) (fs : List Str) (c : Course)
    (cat : Catalog) (h : ¬cleanPrereq f = []) :
    addPrereqs (f :: fs) (c, cat)
      = addPrereqs fs ({ c with prereqs := c.prereqs ++ [cleanPrereq f] },
          if (findC cat (cleanPrereq f)).isSome then cat
          else setC cat (cleanPrereq f) ⟨cleanPrereq f, [], []⟩) := by
  simp [addPrereqs, h]

theorem addPrereqs_fst : ∀ (fs : List Str) (c : Course) (cat : Catalog),
    (addPrereqs fs (c, cat)).1 = ⟨c.id, c.title, c.prereqs ++ cleanPrereqs fs⟩
  | [], c, cat => by simp [addPrereqs, cleanPrereqs]
  | f :: fs, c, cat => by
      by_cases h : cleanPrereq f = []
      · rw [addPrereqs_cons_empty f fs c cat h, addPrereqs_fst fs c cat,
          cleanPrereqs_cons_empty f fs h]
      · rw [addPrereqs_cons_ne f fs c cat h, addPrereqs_fst fs _ _,
          cleanPrereqs_cons_ne f fs h]
        simp

theorem addPrereqs_snd_isSome : ∀ (fs : List Str) (c : Course) (cat : Catalog)
    (k : Str), (findC (addPrereqs fs (c, cat)).2 k).isSome
      ↔ ((findC cat k).isSome ∨ k ∈ cleanPrereqs fs)
  | [], c, cat, k => by simp [addPrereqs, cleanPrereqs]
  | f :: fs, c, cat, k => by
      by_cases h : cleanPrereq f = []
      · rw [addPrereqs_cons_empty f fs c cat h, addPrereqs_snd_isSome fs c cat k,
          cleanPrereqs_cons_empty f fs h]
      · rw [addPrereqs_cons_ne f fs c cat h, addPrereqs_snd_isSome fs _ _ k,
          cleanPrereqs_cons_ne f fs h]
        have hmid : (findC (if (findC cat (cleanPrereq f)).isSome then cat
              else setC cat (cleanPrereq f) ⟨cleanPrereq f, [], []⟩) k).isSome
            ↔ ((findC cat k).isSome ∨ k = cleanPrereq f) := by
          by_cases hf : (findC cat (cleanPrereq f)).isSome
          · rw [if_pos hf]
            constructor
            · exact Or.inl
            · rintro (hk | rfl)
              · exact hk
              · exact hf
          · rw [if_neg hf]
            exact isSome_findC_setC_iff cat (cleanPrereq f) _ k
        rw [hmid, List.mem_cons]
        tauto

theorem mem_addPrereqs_snd : ∀ (fs : List Str) (c : Course) (cat : Catalog)
    (kv : Str × Course), kv ∈ (addPrereqs fs (c, cat)).2 →
      kv ∈ cat ∨ ∃ f ∈ fs, kv = (cleanPrereq f, ⟨cleanPrereq f, [], []⟩)
  | [], c, cat, kv, h => by
      simp only [addPrereqs] at h
      exact Or.inl h
  | f :: fs, c, cat, kv, h => by
      by_cases hf : cleanPrereq f = []
      · rw [addPrereqs_cons_empty f fs c cat hf] at h
        rcases mem_addPrereqs_snd fs c cat kv h with h1 | ⟨g, hg, he⟩
        · exact Or.inl h1
        · exact Or.inr ⟨g, List.mem_cons_of_mem f hg, he⟩
      · rw [addPrereqs_cons_ne f fs c cat hf] at h
        rcases mem_addPrereqs_snd fs _ _ kv h with h1 | ⟨g, hg, he⟩
        · by_cases hm : (findC cat (cleanPrereq f)).isSome
          · rw [if_pos hm] at h1
            exact Or.inl h1
          · rw [if_neg hm] at h1
            rcases mem_setC cat (cleanPrereq f) _ kv h1 with h2 | h2
            · exact Or.inr ⟨f, List.Mem.head _, h2⟩
            · exact Or.inl h2
        · exact Or.inr ⟨g, List.mem_cons_of_mem f hg, he⟩

theorem addPrereqs_keysND : ∀ (fs : List Str) (c : Course) (cat : Catalog),
    keysND cat → keysND (addPrereqs fs (c, cat)).2
  | [], c, cat, h => h
  | f :: fs, c, cat, h => by
      by_cases hf : cleanPrereq f = []
      · rw [addPrereqs_cons_empty f fs c cat hf]
        exact addPrereqs_keysND fs c cat h
      · rw [addPrereqs_cons_ne f fs c cat hf]
        apply addPrereqs_keysND fs
        by_cases hm : (findC cat (cleanPrereq f)).isSome
        · rw [if_pos hm]
          exact h
        · rw [if_neg hm]
          exact keysND_setC cat _ _ h

/-! ## Per-line lemmas -/

theorem processLine_blank (cat : Catalog) (warns : List Warning) (n : Nat)
    (line : Str) (h : trim line = []) :
    processLine cat warns n line = (cat, warns) := by
  simp [processLine, h]

theorem processLine_short (cat : Catalog) (warns : List Warning) (n : Nat)
    (line : Str) (h1 : ¬trim line = [])
    (h2 : (parseCSVLine line).length < 2) :
    processLine cat warns n line = (cat, warns ++ [Warning.fewerThan2 n]) := by
  simp only [processLine]
  rw [if_neg h1, if_pos h2]

theorem processLine_noId (cat : Catalog) (warns : List Warning) (n : Nat)
    (line : Str) (h1 : ¬trim line = [])
    (h2 : ¬(parseCSVLine line).length < 2)
    (h3 : upperStr (trim ((parseCSVLine line).headD [])) = []) :
    processLine cat warns n line = (cat, warns ++ [Warning.emptyCourseId n]) := by
  simp only [processLine]
  rw [if_neg h1, if_neg h2, if_pos h3]

theorem processLine_accept (cat : Catalog) (warns : List Warning) (n : Nat)
    (line : Str) (id title : Str) (c1 : Course)
    (h1 : ¬trim line = []) (h2 : ¬(parseCSVLine line).length < 2)
    (hid : id = upperStr (trim ((parseCSVLine line).headD [])))
    (h3 : ¬id = [])
    (htitle : title = (parseCSVLine line).getD 1 [])
    (hc1 : c1 = ⟨id,
        if title = [] then ((findC cat id).getD emptyCourse).title else title,
        ((findC cat id).getD emptyCourse).prereqs⟩) :
    processLine cat warns n line
      = (setC (addPrereqs ((parseCSVLine line).drop 2) (c1, setC cat id c1)).2 id
           (addPrereqs ((parseCSVLine line).drop 2) (c1, setC cat id c1)).1,
         if title = [] then warns ++ [Warning.emptyTitle n id] else warns) := by
  subst hid
  subst htitle
  subst hc1
  simp only [processLine]
  rw [if_neg h1, if_neg h2, if_neg h3]

theorem processLine_isSome_iff (cat : Catalog) (warns : List Warning) (n : Nat)
    (line : Str) (h1 : ¬trim line = [])
    (h2 : ¬(parseCSVLine line).length < 2)
    (h3 : ¬upperStr (trim ((parseCSVLine line).headD [])) = []) (k : Str) :
    (findC (processLine cat warns n line).1 k).isSome
      ↔ ((findC cat k).isSome
          ∨ k = upperStr (trim ((parseCSVLine line).headD []))
          ∨ k ∈ cleanPrereqs ((parseCSVLine line).drop 2)) := by
  rw [processLine_accept cat warns n line _ _ _ h1 h2 rfl h3 rfl rfl]
  simp only [isSome_findC_setC_iff, addPrereqs_snd_isSome]
  tauto

theorem processLine_mono (cat : Catalog) (warns : List Warning) (n : Nat)
    (line : Str) (k : Str) (hk : (findC cat k).isSome) :
    (findC (processLine cat warns n line).1 k).isSome := by
  by_cases h1 : trim line = []
  · rw [processLine_blank cat warns n line h1]
    exact hk
  · by_cases h2 : (parseCSVLine line).length < 2
    · rw [processLine_short cat warns n line h1 h2]
      exact hk
    · by_cases h3 : upperStr (trim ((parseCSVLine line).headD [])) = []
      · rw [processLine_noId cat warns n line h1 h2 h3]
        exact hk
      · exact (processLine_isSome_iff cat warns n line h1 h2 h3 k).mpr (Or.inl hk)

theorem keysUpper_processLine (cat : Catalog) (warns : List Warning) (n : Nat)
    (line : Str) (hU : keysUpper cat) :
    keysUpper (processLine cat warns n line).1 := by
  by_cases h1 : trim line = []
  · rw [processLine_blank cat warns n line h1]
    exact hU
  · by_cases h2 : (parseCSVLine line).length < 2
    · rw [processLine_short cat warns n line h1 h2]
      exact hU
    · by_cases h3 : upperStr (trim ((parseCSVLine line).headD [])) = []
      · rw [processLine_noId cat warns n line h1 h2 h3]
        exact hU
      · rw [processLine_accept cat warns n line _ _ _ h1 h2 rfl h3 rfl rfl]
        intro kv hkv
        have hidU : upperStr (upperStr (trim ((parseCSVLine line).headD [])))
            = upperStr (trim ((parseCSVLine line).headD [])) :=
          upperStr_upperStr _
        rcases mem_setC _ _ _ kv hkv with h4 | h4
        · subst h4
          rw [addPrereqs_fst]
          exact ⟨rfl, hidU⟩
        · rcases mem_addPrereqs_snd _ _ _ kv h4 with h5 | ⟨g, _, h5⟩
          · rcases mem_setC _ _ _ kv h5 with h6 | h6
            · subst h6
              exact ⟨rfl, hidU⟩
            · exact hU kv h6
          · subst h5
            exact ⟨rfl, upperStr_upperStr _⟩

theorem keysND_processLine (cat : Catalog) (warns : List Warning) (n : Nat)
    (line : Str) (hND : keysND cat) :
    keysND (processLine cat warns n line).1 := by
  by_cases h1 : trim line = []
  · rw [processLine_blank cat warns n line h1]
    exact hND
  · by_cases h2 : (parseCSVLine line).length < 2
    · rw [processLine_short cat warns n line h1 h2]
      exact hND
    · by_cases h3 : upperStr (trim ((parseCSVLine line).headD [])) = []
      · rw [processLine_noId cat warns n line h1 h2 h3]
        exact hND
      · rw [processLine_accept cat warns n line _ _ _ h1 h2 rfl h3 rfl rfl]
        exact keysND_setC _ _ _ (addPrereqs_keysND _ _ _ (keysND_setC _ _ _ hND))

theorem prereqClosed_processLine (cat : Catalog) (warns : List Warning) (n : Nat)
    (line : Str) (hC : prereqClosed cat) :
    prereqClosed (processLine cat warns n line).1 := by
  by_cases h1 : trim line = []
  · rw [processLine_blank cat warns n line h1]
    exact hC
  · by_cases h2 : (parseCSVLine line).length < 2
    · rw [processLine_short cat warns n line h1 h2]
      exact hC
    · by_cases h3 : upperStr (trim ((parseCSVLine line).headD [])) = []
      · rw [processLine_noId cat warns n line h1 h2 h3]
        exact hC
      · have hiff := processLine_isSome_iff cat warns n line h1 h2 h3
        have hM : ∀ k, (findC cat k).isSome →
            (findC (processLine cat warns n line).1 k).isSome :=
          fun k hk => (hiff k).mpr (Or.inl hk)
        have hclean : ∀ p ∈ cleanPrereqs ((parseCSVLine line).drop 2),
            (findC (processLine cat warns n line).1 p).isSome :=
          fun p hp => (hiff p).mpr (Or.inr (Or.inr hp))
        have hc0 : ∀ pid ∈ ((findC cat
              (upperStr (trim ((parseCSVLine line).headD [])))).getD
                emptyCourse).prereqs,
            (findC cat pid).isSome := by
          cases hf : findC cat (upperStr (trim ((parseCSVLine line).headD []))) with
          | none => simp [emptyCourse]
          | some c =>
              intro pid hpid
              exact hC _ (findC_mem _ _ _ hf) pid (by simpa using hpid)
        rw [processLine_accept cat warns n line _ _ _ h1 h2 rfl h3 rfl rfl] at hM hclean ⊢
        intro kv hkv pid hpid
        rcases mem_setC _ _ _ kv hkv with h4 | h4
        · subst h4
          rw [addPrereqs_fst] at hpid
          simp only at hpid
          rcases List.mem_append.mp hpid with h5 | h5
          · exact hM pid (hc0 pid h5)
          · exact hclean pid h5
        · rcases mem_addPrereqs_snd _ _ _ kv h4 with h5 | ⟨g, _, h5⟩
          · rcases mem_setC _ _ _ kv h5 with h6 | h6
            · subst h6
              simp only at hpid
              exact hM pid (hc0 pid hpid)
            · exact hM pid (hC kv h6 pid hpid)
          · subst h5
            simp at hpid

/-! ## Load-loop lemmas -/

theorem processLine_warns_append (cat : Catalog) (warns : List Warning)
    (n : Nat) (line : Str) :
    ∃ ws, (processLine cat warns n line).2 = warns ++ ws := by
  by_cases h1 : trim line = []
  · exact ⟨[], by rw [processLine_blank cat warns n line h1]; simp⟩
  · by_cases h2 : (parseCSVLine line).length < 2
    · exact ⟨[Warning.fewerThan2 n], by rw [processLine_short cat warns n line h1 h2]⟩
    · by_cases h3 : upperStr (trim ((parseCSVLine line).headD [])) = []
      · exact ⟨[Warning.emptyCourseId n], by
          rw [processLine_noId cat warns n line h1 h2 h3]⟩
      · rw [processLine_accept cat warns n line _ _ _ h1 h2 rfl h3 rfl rfl]
        by_cases h4 : (parseCSVLine line).getD 1 [] = []
        · exact ⟨[Warning.emptyTitle n (upperStr (trim ((parseCSVLine line).headD [])))],
            by simp only [if_pos h4]⟩
        · exact ⟨[], by simp only [if_neg h4]; simp⟩

theorem loadLinesAux_warns_mono : ∀ (ls : List Str) (n : Nat) (cat : Catalog)
    (warns : List Warning) (w : Warning), w ∈ warns →
    w ∈ (loadLinesAux ls n cat warns).2
  | [], _, _, _, _, h => h
  | l :: ls, n, cat, warns, w, h => by
      simp only [loadLinesAux]
      apply loadLinesAux_warns_mono
      obtain ⟨ws, hws⟩ := processLine_warns_append cat warns n l
      rw [hws]
      exact List.mem_append_left ws h

theorem loadLinesAux_inv : ∀ (ls : List Str) (n : Nat) (cat : Catalog)
    (warns : List Warning), keysUpper cat → keysND cat → prereqClosed cat →
    keysUpper (loadLinesAux ls n cat warns).1
      ∧ keysND (loadLinesAux ls n cat warns).1
      ∧ prereqClosed (loadLinesAux ls n cat warns).1
  | [], _, _, _, hU, hND, hC => ⟨hU, hND, hC⟩
  | l :: ls, n, cat, warns, hU, hND, hC => by
      simp only [loadLinesAux]
      exact loadLinesAux_inv ls (n + 1) _ _
        (keysUpper_processLine cat warns n l hU)
        (keysND_processLine cat warns n l hND)
        (prereqClosed_processLine cat warns n l hC)

theorem loadLines_inv (lines : List Str) :
    keysUpper (loadLines lines).1 ∧ keysND (loadLines lines).1
      ∧ prereqClosed (loadLines lines).1 := by
  unfold loadLines
  exact loadLinesAux_inv lines 1 [] []
    (fun kv h => by simp at h) (by simp [keysND]) (fun kv h => by simp at h)

theorem loadLinesAux_warn_short : ∀ (ls : List Str) (n : Nat) (cat : Catalog)
    (warns : List Warning) (i : Nat) (h : i < ls.length),
    ¬trim (ls.get ⟨i, h⟩) = [] → (parseCSVLine (ls.get ⟨i, h⟩)).length < 2 →
    Warning.fewerThan2 (n + i) ∈ (loadLinesAux ls n cat warns).2
  | l :: ls, n, cat, warns, 0, h, ht, hl => by
      simp only [loadLinesAux]
      apply loadLinesAux_warns_mono
      rw [processLine_short cat warns n l (by simpa using ht) (by simpa using hl)]
      simp
  | l :: ls, n, cat, warns, i + 1, h, ht, hl => by
      simp only [loadLinesAux]
      have hres := loadLinesAux_warn_short ls (n + 1)
        (processLine cat warns n l).1 (processLine cat warns n l).2 i
        (by simpa using Nat.lt_of_succ_lt_succ h) (by simpa using ht) (by simpa using hl)
      rw [show n + 1 + i = n + (i + 1) from by omega] at hres
      exact hres

/-! ## Sorting lemmas -/

theorem lexLe_total : ∀ a b : Str, lexLe a b = true ∨ lexLe b a = true
  | [], _ => Or.inl rfl
  | _ :: _, [] => Or.inr rfl
  | a :: as, b :: bs => by
      simp only [lexLe]
      by_cases h1 : a.toNat < b.toNat
      · exact Or.inl (by rw [if_pos h1])
      · by_cases h2 : b.toNat < a.toNat
        · exact Or.inr (by rw [if_pos h2])
        · simp only [if_neg h1, if_neg h2]
          exact lexLe_total as bs

theorem lexLe_trans : ∀ a b c : Str, lexLe a b = true → lexLe b c = true →
    lexLe a c = true
  | [], _, _, _, _ => rfl
  | _ :: _, [], _, h, _ => by simp [lexLe] at h
  | _ :: _, _ :: _, [], _, h => by simp [lexLe] at h
  | a :: as, b :: bs, c :: cs, h1, h2 => by
      simp only [lexLe] at h1 h2 ⊢
      have h1' : a.toNat < b.toNat ∨ (a.toNat = b.toNat ∧ lexLe as bs = true) := by
        by_cases hab : a.toNat < b.toNat
        · exact Or.inl hab
        · rw [if_neg hab] at h1
          by_cases hba : b.toNat < a.toNat
          · rw [if_pos hba] at h1
            simp at h1
          · rw [if_neg hba] at h1
            exact Or.inr ⟨by omega, h1⟩
      have h2' : b.toNat < c.toNat ∨ (b.toNat = c.toNat ∧ lexLe bs cs = true) := by
        by_cases hbc : b.toNat < c.toNat
        · exact Or.inl hbc
        · rw [if_neg hbc] at h2
          by_cases hcb : c.toNat < b.toNat
          · rw [if_pos hcb] at h2
            simp at h2
          · rw [if_neg hcb] at h2
            exact Or.inr ⟨by omega, h2⟩
      rcases h1' with hab | ⟨hab, hrec1⟩ <;> rcases h2' with hbc | ⟨hbc, hrec2⟩
      · rw [if_pos (show a.toNat < c.toNat by omega)]
      · rw [if_pos (show a.toNat < c.toNat by omega)]
      · rw [if_pos (show a.toNat < c.toNat by omega)]
      · rw [if_neg (show ¬a.toNat < c.toNat by omega),
          if_neg (show ¬c.toNat < a.toNat by omega)]
        exact lexLe_trans as bs cs hrec1 hrec2

theorem sorted_insertionSort_strLe (l : List Str) :
    List.Sorted strLe (List.insertionSort strLe l) :=
  @List.sorted_insertionSort Str strLe _ ⟨lexLe_total⟩ ⟨lexLe_trans⟩ l

theorem listSorted_eq (cat : Catalog) :
    listSorted cat
      = (List.insertionSort strLe
          ((cat.filter (fun kv => !kv.2.title.isEmpty)).map (fun kv => kv.2.id))).map
          (fun i => (i, ((findC cat i).getD emptyCourse).title)) := rfl

theorem listSorted_perm (cat : Catalog) (hU : keysUpper cat) (hND : keysND cat) :
    (listSorted cat).Perm
      ((cat.filter (fun kv => !kv.2.title.isEmpty)).map
        (fun kv => (kv.2.id, kv.2.title))) := by
  rw [listSorted_eq]
  have hperm := List.perm_insertionSort strLe
    ((cat.filter (fun kv => !kv.2.title.isEmpty)).map (fun kv => kv.2.id))
  have hmap := hperm.map (fun i => (i, ((findC cat i).getD emptyCourse).title))
  apply hmap.trans
  rw [List.map_map]
  apply List.Perm.of_eq
  apply List.map_congr_left
  intro kv hkv
  have hmem : kv ∈ cat := List.mem_of_mem_filter hkv
  have hid : kv.2.id = kv.1 := (hU kv hmem).1
  have hfind : findC cat kv.1 = some kv.2 :=
    findC_eq_some_of_mem cat hND kv.1 kv.2 hmem
  simp only [Function.comp]
  rw [hid, hfind]
  rfl

theorem listSorted_sorted (cat : Catalog) :
    List.Pairwise (fun a b : Str × Str => strLe a.1 b.1) (listSorted cat) := by
  rw [listSorted_eq]
  apply List.Pairwise.map
  · intro a b hab
    exact hab
  · exact sorted_insertionSort_strLe _

/-! ## Claim theorems -/

/-- C1: `parseCSVLine` splits on commas at the top level (on quote-free
lines it agrees with plain comma splitting), treats a comma inside a
double-quoted region as literal content, turns a doubled quote inside a
quoted region into one literal quote, and trims every field; in particular
the two example lines parse as stated. -/
theorem parseCSVLine_quoting_and_trimming :
    parseCSVLine (str "a,\"b,c\",d") = [str "a", str "b,c", str "d"]
    ∧ parseCSVLine (str "a,\"b\"\"c\",d") = [str "a", str "b\"c", str "d"]
    ∧ (∀ line : Str, '"' ∉ line → parseCSVLine line = (splitComma line).map trim)
    ∧ (∀ line f : Str, f ∈ parseCSVLine line → trim f = f) := by
  refine ⟨by decide, by decide, ?_, ?_⟩
  · intro line hq
    unfold parseCSVLine
    rw [parseFields_no_quote line [] hq]
    cases hs : splitComma line with
    | nil => exact absurd hs (splitComma_ne_nil line)
    | cons f rest => simp
  · intro line f h
    exact trim_of_mem_parseCSVLine line f h

theorem parseCSVLine_quoting_and_trimming_witness :
    parseCSVLine (str "x, y ,z") = (splitComma (str "x, y ,z")).map trim
    ∧ trim (str "b,c") = str "b,c" :=
  ⟨parseCSVLine_quoting_and_trimming.2.2.1 (str "x, y ,z") (by decide),
   parseCSVLine_quoting_and_trimming.2.2.2 (str "a,\"b,c\",d") (str "b,c") (by decide)⟩

/-- C2: after a successful load, every prerequisite id stored in any catalog
entry has an entry of its own in the loaded catalog (a full record or an
eagerly created placeholder), so resolution never misses a key. -/
theorem load_prereqs_resolve (lines : List Str) :
    ∀ kv ∈ (loadLines lines).1, ∀ pid ∈ kv.2.prereqs,
      ∃ c : Course, findC (loadLines lines).1 pid = some c := by
  intro kv hkv pid hpid
  exact Option.isSome_iff_exists.mp ((loadLines_inv lines).2.2 kv hkv pid hpid)

theorem load_prereqs_resolve_witness :
    ∃ c : Course, findC (loadLines [str "CSCI300,Intro,CSCI101"]).1
      (str "CSCI101") = some c :=
  load_prereqs_resolve [str "CSCI300,Intro,CSCI101"]
    (str "CSCI300", ⟨str "CSCI300", str "Intro", [str "CSCI101"]⟩) (by decide)
    (str "CSCI101") (by decide)

/-- C3: an unopenable file makes the load return failure without touching
the previous catalog or warnings, and `main` then clears only the readiness
flag; a successful load replaces catalog and warning list wholesale with
values that depend only on the file content. -/
theorem load_failure_frame :
    (∀ (courses : Catalog) (warnings : List Warning),
        loadCoursesFromFile none courses warnings = (false, courses, warnings))
    ∧ (∀ st : AppState, (doLoad none st).1.courses = st.courses
        ∧ (doLoad none st).1.dataLoaded = false
        ∧ (doLoad none st).2 = [])
    ∧ (∀ (st : AppState) (lines : List Str),
        (doLoad (some lines) st).1.courses = (loadLines lines).1
        ∧ (doLoad (some lines) st).1.dataLoaded = true
        ∧ (doLoad (some lines) st).2 = (loadLines lines).2) :=
  ⟨fun _ _ => rfl, fun _ => ⟨rfl, rfl, rfl⟩, fun _ _ => ⟨rfl, rfl, rfl⟩⟩

/-- C4: during a load, a line that trims to blank is skipped with no warning
and no catalog change; a non-blank line with fewer than 2 fields is skipped
with a fewer-than-2-fields warning carrying its 1-indexed line number; a
line whose first field trims to empty is skipped with an empty-course-id
warning; and a successfully opened load always returns success regardless of
warnings. -/
theorem load_line_skips :
    (∀ (cat : Catalog) (warns : List Warning) (n : Nat) (line : Str),
        trim line = [] → processLine cat warns n line = (cat, warns))
    ∧ (∀ (cat : Catalog) (warns : List Warning) (n : Nat) (line : Str),
        ¬trim line = [] → (parseCSVLine line).length < 2 →
        processLine cat warns n line = (cat, warns ++ [Warning.fewerThan2 n]))
    ∧ (∀ (cat : Catalog) (warns : List Warning) (n : Nat) (line : Str),
        ¬trim line = [] → ¬(parseCSVLine line).length < 2 →
        trim ((parseCSVLine line).headD []) = [] →
        processLine cat warns n line = (cat, warns ++ [Warning.emptyCourseId n]))
    ∧ (∀ (lines : List Str) (i : Nat) (h : i < lines.length),
        ¬trim (lines.get ⟨i, h⟩) = [] →
        (parseCSVLine (lines.get ⟨i, h⟩)).length < 2 →
        Warning.fewerThan2 (i + 1) ∈ (loadLines lines).2)
    ∧ (∀ (file : List Str) (cat : Catalog) (warns : List Warning),
        (loadCoursesFromFile (some file) cat warns).1 = true) := by
  refine ⟨processLine_blank, processLine_short, ?_, ?_, fun _ _ _ => rfl⟩
  · intro cat warns n line h1 h2 h3
    exact processLine_noId cat warns n line h1 h2 (by rw [h3]; rfl)
  · intro lines i h ht hl
    have hres := loadLinesAux_warn_short lines 1 [] [] i h ht hl
    rw [show 1 + i = i + 1 from by omega] at hres
    exact hres

theorem load_line_skips_witness :
    processLine [] [] 3 (str "   ") = ([], [])
    ∧ processLine [] [] 2 (str "CSCI100") = ([], [Warning.fewerThan2 2])
    ∧ processLine [] [] 4 (str " ,T") = ([], [Warning.emptyCourseId 4])
    ∧ Warning.fewerThan2 2 ∈ (loadLines [str "A,B", str "junk"]).2
    ∧ (loadCoursesFromFile (some [str "junk"]) [] []).1 = true :=
  ⟨load_line_skips.1 [] [] 3 (str "   ") (by decide),
   load_line_skips.2.1 [] [] 2 (str "CSCI100") (by decide) (by decide),
   load_line_skips.2.2.1 [] [] 4 (str " ,T") (by decide) (by decide) (by decide),
   load_line_skips.2.2.2.1 [str "A,B", str "junk"] 1 (by decide) (by decide) (by decide),
   load_line_skips.2.2.2.2 [str "junk"] [] []⟩

/-- C5: `describe` trims and uppercases the query before lookup; a query
that trims to empty (including "" and "   ") yields the empty-query error,
distinct from not-found; a normalized query with no entry, or whose entry
is a placeholder (empty title), yields not-found. -/
theorem describe_empty_and_not_found :
    (∀ (cat : Catalog) (q : Str), trim q = [] →
        describe cat q = DescribeResult.emptyQuery)
    ∧ (∀ cat : Catalog, describe cat (str "") = DescribeResult.emptyQuery
        ∧ describe cat (str "   ") = DescribeResult.emptyQuery)
    ∧ (∀ (cat : Catalog) (q : Str), ¬trim q = [] →
        findC cat (upperStr (trim q)) = none →
        describe cat q = DescribeResult.notFound (upperStr (trim q)))
    ∧ (∀ (cat : Catalog) (q : Str) (c : Course), ¬trim q = [] →
        findC cat (upperStr (trim q)) = some c → c.title = [] →
        describe cat q = DescribeResult.notFound (upperStr (trim q))) := by
  have hempty : ∀ (cat : Catalog) (q : Str), trim q = [] →
      describe cat q = DescribeResult.emptyQuery := by
    intro cat q h
    unfold describe
    rw [h]
    rfl
  refine ⟨hempty,
    fun cat => ⟨hempty cat (str "") (by decide), hempty cat (str "   ") (by decide)⟩,
    ?_, ?_⟩
  · intro cat q hq hfind
    unfold describe
    rw [if_neg (fun hh => hq ((upperStr_eq_nil (trim q)).mp hh)), hfind]
  · intro cat q c hq hfind htitle
    unfold describe
    rw [if_neg (fun hh => hq ((upperStr_eq_nil (trim q)).mp hh)), hfind]
    simp only [if_pos htitle]

theorem describe_empty_and_not_found_witness :
    describe ([] : Catalog) (str "nope")
        = DescribeResult.notFound (upperStr (trim (str "nope")))
    ∧ describe [(str "X", ⟨str "X", [], [str "Y"]⟩)] (str " x ")
        = DescribeResult.notFound (upperStr (trim (str " x ")))
    ∧ describe ([] : Catalog) (str "   ") = DescribeResult.emptyQuery :=
  ⟨describe_empty_and_not_found.2.2.1 [] (str "nope") (by decide) (by decide),
   describe_empty_and_not_found.2.2.2 [(str "X", ⟨str "X", [], [str "Y"]⟩)]
     (str " x ") ⟨str "X", [], [str "Y"]⟩ (by decide) (by decide) (by decide),
   (describe_empty_and_not_found.2.1 []).2⟩

/-- C6: a successful lookup lists the course's stored prerequisites in file
order, one output row per stored entry (repeats kept, no recursion): a row
shows the resolved entry's id and title when that entry's title is
non-empty, and the literal prerequisite id with no title (the "Title
unknown" row) when the id is missing or resolves to a placeholder; an empty
prerequisite list yields a `found` result with no rows. -/
theorem describe_found_spec (cat : Catalog) (q : Str) (c : Course)
    (hq : ¬upperStr (trim q) = [])
    (hfind : findC cat (upperStr (trim q)) = some c)
    (htitle : ¬c.title = []) :
    describe cat q
        = DescribeResult.found c.id c.title (c.prereqs.map (resolvePrereq cat))
    ∧ (c.prereqs.map (resolvePrereq cat)).length = c.prereqs.length
    ∧ (c.prereqs = [] → describe cat q = DescribeResult.found c.id c.title [])
    ∧ (∀ (i : Nat) (h : i < c.prereqs.length),
        (c.prereqs.map (resolvePrereq cat)).get ⟨i, by simpa using h⟩
          = resolvePrereq cat (c.prereqs.get ⟨i, h⟩))
    ∧ (∀ pid : Str,
        (∃ p : Course, findC cat pid = some p ∧ ¬p.title = []
            ∧ resolvePrereq cat pid = (p.id, some p.title))
        ∨ (findC cat pid = none ∧ resolvePrereq cat pid = (pid, none))
        ∨ (∃ p : Course, findC cat pid = some p ∧ p.title = []
            ∧ resolvePrereq cat pid = (pid, none))) := by
  have hmain : describe cat q
      = DescribeResult.found c.id c.title (c.prereqs.map (resolvePrereq cat)) := by
    unfold describe
    rw [if_neg hq, hfind]
    simp only [if_neg htitle]
  refine ⟨hmain, List.length_map _ _, ?_, ?_, ?_⟩
  · intro hnil
    rw [hmain, hnil]
    rfl
  · intro i h
    simp
  · intro pid
    cases hp : findC cat pid with
    | none =>
        refine Or.inr (Or.inl ⟨rfl, ?_⟩)
        unfold resolvePrereq
        rw [hp]
    | some p =>
        by_cases hpt : p.title = []
        · refine Or.inr (Or.inr ⟨p, rfl, hpt, ?_⟩)
          unfold resolvePrereq
          rw [hp]
          simp [hpt]
        · refine Or.inl ⟨p, rfl, hpt, ?_⟩
          unfold resolvePrereq
          rw [hp]
          simp [hpt]

theorem describe_found_spec_witness :
    describe (loadLines [str "CSCI300,Algo,CSCI101,MATH101,CSCI101",
        str "CSCI101,Intro"]).1 (str " csci300 ")
      = DescribeResult.found (str "CSCI300") (str "Algo")
          [(str "CSCI101", some (str "Intro")), (str "MATH101", none),
           (str "CSCI101", some (str "Intro"))] := by
  have h := (describe_found_spec
    (loadLines [str "CSCI300,Algo,CSCI101,MATH101,CSCI101", str "CSCI101,Intro"]).1
    (str " csci300 ")
    ⟨str "CSCI300", str "Algo", [str "CSCI101", str "MATH101", str "CSCI101"]⟩
    (by decide) (by decide) (by decide)).1
  rw [h]
  decide

/-- C7: the sorted listing contains exactly one (id, title) pair for each
entry with a non-empty title (placeholders excluded), ordered
lexicographically by id rather than by insertion order; on the spec's
two-course example CSCI101 is listed before CSCI300. -/
theorem listSorted_spec (cat : Catalog) (hU : keysUpper cat) (hND : keysND cat) :
    (listSorted cat).Perm
      ((cat.filter (fun kv => !kv.2.title.isEmpty)).map
        (fun kv => (kv.2.id, kv.2.title)))
    ∧ List.Pairwise (fun a b : Str × Str => lexLe a.1 b.1 = true) (listSorted cat)
    ∧ listSorted (loadLines [str "CSCI300,Foo", str "CSCI101,Bar"]).1
        = [(str "CSCI101", str "Bar"), (str "CSCI300", str "Foo")] :=
  ⟨listSorted_perm cat hU hND, listSorted_sorted cat, by decide⟩

theorem listSorted_spec_witness :
    (listSorted (loadLines [str "CSCI300,Foo", str "CSCI101,Bar"]).1).Perm
      (((loadLines [str "CSCI300,Foo", str "CSCI101,Bar"]).1.filter
          (fun kv => !kv.2.title.isEmpty)).map
        (fun kv => (kv.2.id, kv.2.title))) :=
  (listSorted_spec (loadLines [str "CSCI300,Foo", str "CSCI101,Bar"]).1
    (by decide) (by decide)).1

/-- C8: a line whose id matches an existing entry reuses that entry: the
stored title is overwritten only when the line's title field is non-empty
(an empty title keeps the already-known title and records an empty-title
warning, but the record is still kept), and the line's non-empty
prerequisite fields are appended to the existing prerequisite list. -/
theorem processLine_reuses_existing (cat : Catalog) (warns : List Warning)
    (n : Nat) (line : Str) (c0 : Course)
    (h1 : ¬trim line = []) (h2 : ¬(parseCSVLine line).length < 2)
    (h3 : ¬upperStr (trim ((parseCSVLine line).headD [])) = [])
    (hfind : findC cat (upperStr (trim ((parseCSVLine line).headD [])))
      = some c0) :
    findC (processLine cat warns n line).1
        (upperStr (trim ((parseCSVLine line).headD [])))
      = some ⟨upperStr (trim ((parseCSVLine line).headD [])),
          if (parseCSVLine line).getD 1 [] = [] then c0.title
          else (parseCSVLine line).getD 1 [],
          c0.prereqs ++ cleanPrereqs ((parseCSVLine line).drop 2)⟩
    ∧ ((parseCSVLine line).getD 1 [] = [] →
        (processLine cat warns n line).2
          = warns ++ [Warning.emptyTitle n
              (upperStr (trim ((parseCSVLine line).headD [])))])
    ∧ (¬(parseCSVLine line).getD 1 [] = [] →
        (processLine cat warns n line).2 = warns) := by
  rw [processLine_accept cat warns n line _ _ _ h1 h2 rfl h3 rfl rfl]
  refine ⟨?_, ?_, ?_⟩
  · rw [findC_setC_self, addPrereqs_fst]
    simp only [hfind]
    rfl
  · intro h4
    simp only [if_pos h4]
  · intro h4
    simp only [if_neg h4]

theorem processLine_reuses_existing_witness :
    findC (processLine [(str "CSCI101", ⟨str "CSCI101", str "Bar", []⟩)] [] 2
        (str "csci101,,MATH101")).1
        (upperStr (trim ((parseCSVLine (str "csci101,,MATH101")).headD [])))
      = some ⟨upperStr (trim ((parseCSVLine (str "csci101,,MATH101")).headD [])),
          if (parseCSVLine (str "csci101,,MATH101")).getD 1 [] = []
            then (⟨str "CSCI101", str "Bar", ([] : List Str)⟩ : Course).title
            else (parseCSVLine (str "csci101,,MATH101")).getD 1 [],
          (⟨str "CSCI101", str "Bar", ([] : List Str)⟩ : Course).prereqs
            ++ cleanPrereqs ((parseCSVLine (str "csci101,,MATH101")).drop 2)⟩ :=
  (processLine_reuses_existing [(str "CSCI101", ⟨str "CSCI101", str "Bar", []⟩)]
    [] 2 (str "csci101,,MATH101") ⟨str "CSCI101", str "Bar", []⟩
    (by decide) (by decide) (by decide) (by decide)).1

/-- C9: loading the same file content twice yields exactly the catalog of a
single load — the rebuilt catalog depends only on the file, not on the prior
state, because a successful load clears the map first. -/
theorem load_idempotent :
    (∀ (lines : List Str) (st : AppState),
        (doLoad (some lines) (doLoad (some lines) st).1).1.courses
          = (doLoad (some lines) st).1.courses)
    ∧ (∀ (lines : List Str) (st st' : AppState),
        (doLoad (some lines) st).1.courses
          = (doLoad (some lines) st').1.courses) :=
  ⟨fun _ _ => rfl, fun _ _ _ => rfl⟩

/-- C10: after any load, each entry stores its own key in its id field and
the key is uppercase-normalized (records and placeholders alike); a
prerequisite field that trims to empty contributes nothing: `cleanPrereqs`
drops it, the keys after an accepted line are exactly the old keys plus the
line's id plus the line's non-empty normalized prerequisite fields (so no
placeholder arises from an empty field), and the line's warnings are the
title warning alone, independent of the prerequisite fields. -/
theorem load_id_key_invariant :
    (∀ lines : List Str, ∀ kv ∈ (loadLines lines).1,
        kv.2.id = kv.1 ∧ upperStr kv.1 = kv.1)
    ∧ (∀ (f : Str) (fs : List Str), cleanPrereq f = [] →
        cleanPrereqs (f :: fs) = cleanPrereqs fs)
    ∧ (∀ (cat : Catalog) (warns : List Warning) (n : Nat) (line : Str),
        ¬trim line = [] → ¬(parseCSVLine line).length < 2 →
        ¬upperStr (trim ((parseCSVLine line).headD [])) = [] →
        (∀ k : Str, (findC (processLine cat warns n line).1 k).isSome
            ↔ ((findC cat k).isSome
                ∨ k = upperStr (trim ((parseCSVLine line).headD []))
                ∨ k ∈ cleanPrereqs ((parseCSVLine line).drop 2)))
          ∧ (processLine cat warns n line).2
              = (if (parseCSVLine line).getD 1 [] = []
                  then warns ++ [Warning.emptyTitle n
                      (upperStr (trim ((parseCSVLine line).headD [])))]
                  else warns)) := by
  refine ⟨?_, cleanPrereqs_cons_empty, ?_⟩
  · intro lines kv hkv
    exact (loadLines_inv lines).1 kv hkv
  · intro cat warns n line h1 h2 h3
    refine ⟨processLine_isSome_iff cat warns n line h1 h2 h3, ?_⟩
    rw [processLine_accept cat warns n line _ _ _ h1 h2 rfl h3 rfl rfl]

theorem load_id_key_invariant_witness :
    ((str "CSCI300", (⟨str "CSCI300", str "Foo", []⟩ : Course)).2.id
        = str "CSCI300" ∧ upperStr (str "CSCI300") = str "CSCI300")
    ∧ cleanPrereqs [str " ", str "x"] = cleanPrereqs [str "x"]
    ∧ ((findC (processLine [] [] 1 (str "A,B,,C")).1 (str " ")).isSome
        ↔ ((findC ([] : Catalog) (str " ")).isSome
            ∨ str " " = upperStr (trim ((parseCSVLine (str "A,B,,C")).headD []))
            ∨ str " " ∈ cleanPrereqs ((parseCSVLine (str "A,B,,C")).drop 2))) :=
  ⟨load_id_key_invariant.1 [str "CSCI300,Foo"]
      (str "CSCI300", ⟨str "CSCI300", str "Foo", []⟩) (by decide),
   load_id_key_invariant.2.1 (str " ") [str "x"] (by decide),
   (load_id_key_invariant.2.2 [] [] 1 (str "A,B,,C")
      (by decide) (by decide) (by decide)).1 (str " ")⟩
